/-
  Verification of the localStorage data shim, cache manager and validation
  helpers of the jersey order-management repository.

  Shallow embedding notes:
  * A JS object (record/document) is modelled as an association list of
    field names to `JSValue`s; property lookup is first-occurrence lookup.
  * `undefined` property access is modelled by `Option`.
  * The shim's collections are JSON arrays in localStorage, modelled as
    `List Record`; the JSON round-trip is the identity on the model.
-/
import Mathlib

namespace Jersey

/-- JS values stored in records: strings and (integral) numbers are the only
value shapes the verified operations inspect. -/
inductive JSValue where
  | str (s : String)
  | num (n : Int)
  deriving DecidableEq

/-- A JS object: field/value pairs in insertion order (keys unique in JS). -/
abbrev Record := List (String × JSValue)

/-- First-occurrence association lookup; models JS property access `o[k]`
(`none` = `undefined`). -/
def lookupKV {β : Type} (k : String) (l : List (String × β)) : Option β :=
  (l.find? (fun p => decide (p.1 = k))).map (·.2)

/-- `r[f]` for a record. -/
def getField (r : Record) (f : String) : Option JSValue :=
  lookupKV f r

/-- `Object.assign(base, extra)`: every field of `extra` overrides the value
in `base`; fields of `base` not present in `extra` are kept (JS keeps the base
field positions; only lookup semantics matter to the claims). -/
def objectAssign (base extra : Record) : Record :=
  (base.map (fun p => (p.1, (lookupKV p.1 extra).getD p.2))) ++
    (extra.filter (fun p => (lookupKV p.1 base).isNone))

/-- The record stored by `doc(id).set(data, opts)`:
`Object.assign({ id }, data)` (src/js/localstorage-manager.js:30-31). -/
def setRecord (id : String) (data : Record) : Record :=
  objectAssign [("id", JSValue.str id)] data

/-- `x && x.id === id` — the match predicate used by `doc(id)` reads/writes. -/
def idMatches (id : String) (x : Record) : Bool :=
  decide (getField x "id" = some (JSValue.str id))

/-- Result of `doc(id).get()`: `{ exists: !!found, data: () => (found || {}) }`. -/
structure GetResult where
  exists_ : Bool
  data : Record
  deriving DecidableEq

/-- `collection(name).doc(id).get()` (src/js/localstorage-manager.js:22-26):
finds the first record whose `id` field is the string `id`. -/
def docGet (id : String) (l : List Record) : GetResult :=
  match l.find? (idMatches id) with
  | some r => ⟨true, r⟩
  | none => ⟨false, []⟩

/-- `collection(name).doc(id).set(data, opts)`
(src/js/localstorage-manager.js:27-33): replaces the first record whose `id`
field matches (findIndex + in-place assignment) or appends, always storing
`Object.assign({ id }, data)`.  The options argument (`{ merge }`) is taken
but never read by the source, hence the unused `merge` parameter. -/
def docSet (id : String) (data : Record) (merge : Bool) : List Record → List Record
  | [] => [setRecord id data]
  | r :: t =>
      if idMatches id r then setRecord id data :: t
      else r :: docSet id data merge t

/-- `FirebaseData.save(key, data)` for a single (non-array) record
(src/js/localstorage-manager.js:87-96): replaces the first record with
`x.id === data.id` (strict equality; `undefined === undefined` is true,
modelled by `Option` equality) or appends `data` itself. -/
def saveRecord (data : Record) : List Record → List Record
  | [] => [data]
  | r :: t =>
      if decide (getField r "id" = getField data "id") then data :: t
      else r :: saveRecord data t

/-- `FirebaseData.save(key, data)` when `Array.isArray(data)`: the array
replaces the whole collection verbatim. -/
def saveArray (data : List Record) (_l : List Record) : List Record :=
  data

/-- The `id` value of a record, as compared by the shim's write paths. -/
def idOf (r : Record) : Option JSValue := getField r "id"

/-- Invariant: no two records of a collection have the same `id` value. -/
def uniqueIds (l : List Record) : Prop := (l.map idOf).Nodup

/-- JS `>` on the two value shapes: numeric on numbers, lexicographic on
strings.  A mixed-type comparison goes through string→number coercion in JS
and is `false` whenever that coercion yields NaN; it is modelled as `false`
(no verified claim compares heterogeneous values). -/
def jsGtV : JSValue → JSValue → Bool
  | JSValue.num a, JSValue.num b => decide (b < a)
  | JSValue.str a, JSValue.str b => decide (b < a)
  | _, _ => false

/-- JS `>` lifted to possibly-`undefined` operands: any comparison with
`undefined` is `false` (NaN semantics). -/
def jsGtOpt : Option JSValue → Option JSValue → Bool
  | some a, some b => jsGtV a b
  | _, _ => false

/-- The sort comparator of `orderBy(field, dir)`
(src/js/localstorage-manager.js:41-46):
`if (dir === 'desc') return (bv>av?1:-1); return (av>bv?1:-1)`.
Note it never returns 0. -/
def jsCompare (dir field : String) (a b : Record) : Int :=
  let av := getField a field
  let bv := getField b field
  if dir = "desc" then (if jsGtOpt bv av then 1 else -1)
  else (if jsGtOpt av bv then 1 else -1)

/-- `compare a b ≤ 0`: "a may stay before b" for the comparator above. -/
def jsLe (dir field : String) (a b : Record) : Bool :=
  decide (jsCompare dir field a b = -1)

/-- Stable insertion of `a` into `l` w.r.t. `le` (keeps `a` before the first
element it is `le`-related to). -/
def insertLe (le : Record → Record → Bool) (a : Record) : List Record → List Record
  | [] => [a]
  | b :: t => if le a b then a :: b :: t else b :: insertLe le a t

/-- Stable comparator sort: the model of `Array.prototype.sort(comparator)`
for a consistent comparator (insertion sort, taking the earlier element first
whenever the comparator does not order it after). -/
def sortLe (le : Record → Record → Bool) (l : List Record) : List Record :=
  l.foldr (insertLe le) []

/-- `list.slice().sort((a,b)=>{...})` as performed by `onSnapshot`/`get`
(src/js/localstorage-manager.js:40-46). -/
def snapshotDocs (dir field : String) (l : List Record) : List Record :=
  sortLe (jsLe dir field) l

/-- The query object returned by `orderBy(field, dir)`. -/
structure Query where
  field : String
  dir : String
  deriving DecidableEq

/-- `collection(name).orderBy(field, dir)` (src/js/localstorage-manager.js:36). -/
def orderBy (field dir : String) : Query :=
  ⟨field, dir⟩

/-- `limit: function(){ return api; }` (src/js/localstorage-manager.js:38):
the limit argument is not even bound — the call returns the same query api. -/
def Query.limit (q : Query) (_n : Nat) : Query :=
  q

/-- Result of `onSnapshot(next)`: the list of callback invocations (each one
the emitted, sorted doc list).  The returned `function unsubscribe(){}` is a
no-op and carries no state. -/
structure SnapshotResult where
  emissions : List (List Record)
  deriving DecidableEq

/-- `onSnapshot(next)` (src/js/localstorage-manager.js:39-48): one immediate
synchronous emission of the sorted collection, no later ones. -/
def Query.onSnapshot (q : Query) (l : List Record) : SnapshotResult :=
  ⟨[snapshotDocs q.dir q.field l]⟩

/-! ## Cache manager (src/js/security.js, class CacheManager) -/

/-- A cache entry `{ data, timestamp, ttl }` (src/js/security.js:261-265).
Timestamps and TTLs are millisecond counts (`Date.now()`), modelled as `Int`. -/
structure CacheItem (α : Type) where
  data : α
  timestamp : Int
  ttl : Int
  deriving DecidableEq

/-- `this.storagePrefix = 'jersey_cache_'` (src/js/security.js:188). -/
def cacheStoragePref : String := "jersey_cache_"

/-- `this.maxMemorySize = 50` (src/js/security.js:187). -/
def maxMemorySize : Nat := 50

/-- The two cache tiers.  `memory` models the `Map` in insertion order
(unique keys); `storage` models the localStorage cache entries, whose keys
are stored with the `jersey_cache_` prefix already applied. -/
structure CacheState (α : Type) where
  memory : List (String × CacheItem α)
  storage : List (String × CacheItem α)
  deriving DecidableEq

/-- `Map.set` / `localStorage.setItem`: overwrite in place or append. -/
def mapSet {β : Type} (k : String) (v : β) : List (String × β) → List (String × β)
  | [] => [(k, v)]
  | p :: t => if p.1 = k then (k, v) :: t else p :: mapSet k v t

/-- `Map.delete` / `localStorage.removeItem`: remove the entry with key `k`
(all occurrences; keys are unique in both stores). -/
def mapDelete {β : Type} (k : String) (l : List (String × β)) : List (String × β) :=
  l.filter (fun p => decide (p.1 ≠ k))

/-- `isValid(item)` (src/js/security.js:296-298):
`Date.now() - item.timestamp < item.ttl`, with the current time explicit. -/
def itemValid {α : Type} (now : Int) (item : CacheItem α) : Bool :=
  decide (now - item.timestamp < item.ttl)

/-- `setMemoryCache(key, item)` (src/js/security.js:281-290): when the map is
full, evict the first-inserted key (`keys().next().value`, the list head for
unique keys), then `Map.set`. -/
def setMemoryCache {α : Type} (k : String) (item : CacheItem α)
    (mem : List (String × CacheItem α)) : List (String × CacheItem α) :=
  mapSet k item (if maxMemorySize ≤ mem.length then mem.tail else mem)

/-- `CacheManager.set(key, data, ttl)` (src/js/security.js:259-278): writes
`{ data, timestamp: Date.now(), ttl }` to the memory tier and, under the
storage prefix, to the durable tier. -/
def cacheSet {α : Type} (now : Int) (key : String) (data : α) (ttl : Int)
    (st : CacheState α) : CacheState α :=
  let item : CacheItem α := ⟨data, now, ttl⟩
  { memory := setMemoryCache key item st.memory
    storage := mapSet (cacheStoragePref ++ key) item st.storage }

/-- The localStorage half of `CacheManager.get` (src/js/security.js:234-253):
on a durable hit that is still valid, promote to memory and return the data;
on an expired hit, remove the durable entry and fall through to a miss. -/
def cacheGetStorage {α : Type} (now : Int) (key : String) (st : CacheState α) :
    Option α × CacheState α :=
  match lookupKV (cacheStoragePref ++ key) st.storage with
  | some item =>
      if itemValid now item then
        (some item.data, { st with memory := setMemoryCache key item st.memory })
      else
        (none, { st with storage := mapDelete (cacheStoragePref ++ key) st.storage })
  | none => (none, st)

/-- `CacheManager.get(key)` (src/js/security.js:224-256): memory tier first
(deleting an expired memory entry), then the durable tier. -/
def cacheGet {α : Type} (now : Int) (key : String) (st : CacheState α) :
    Option α × CacheState α :=
  match lookupKV key st.memory with
  | some item =>
      if itemValid now item then (some item.data, st)
      else cacheGetStorage now key { st with memory := mapDelete key st.memory }
  | none => cacheGetStorage now key st

/-- JS `s.startsWith(pre)`: `pre` is a prefix of `s`'s character sequence. -/
def strStarts (pre s : String) : Bool :=
  List.isPrefixOf pre.data s.data

/-- `CacheManager.invalidateCollection(collection)` (src/js/security.js:316-336):
drop every memory key starting with `collection` and every localStorage key
starting with `storagePre` + `collection`. -/
def invalidateCollection {α : Type} (c : String) (st : CacheState α) : CacheState α :=
  { memory := st.memory.filter (fun p => !(strStarts c p.1))
    storage := st.storage.filter (fun p => !(strStarts (cacheStoragePref ++ c) p.1)) }

/-- `CacheManager.generateKey(collection, options)` (src/js/security.js:213-219):
`Object.keys(options).sort().map(key => key + '=' + options[key]).join('&')`
appended to the collection name after a `?` when non-empty.  Option values are
already coerced to their string forms. -/
def generateKey (collection : String) (options : List (String × String)) : String :=
  let keys := (options.map Prod.fst).insertionSort (· ≤ ·)
  let params := String.intercalate "&" (keys.map (fun k => k ++ "=" ++ ((lookupKV k options).getD "")))
  collection ++ (if params = "" then "" else "?" ++ params)

/-! ## Password validation (src/js/validation.js, src/js/security.js) -/

/-- `/[A-Z]/.test(password)`. -/
def hasUpperCase (p : String) : Bool :=
  p.data.any (fun c => decide ('A' ≤ c) && decide (c ≤ 'Z'))

/-- `/[a-z]/.test(password)`. -/
def hasLowerCase (p : String) : Bool :=
  p.data.any (fun c => decide ('a' ≤ c) && decide (c ≤ 'z'))

/-- `/\d/.test(password)`. -/
def hasNumbers (p : String) : Bool :=
  p.data.any (fun c => decide ('0' ≤ c) && decide (c ≤ '9'))

/-- The special-character class of both password validators:
`/[!@#$%^&*(),.?":{}|<>]/`. -/
def specialChars : List Char := "!@#$%^&*(),.?\":\x7b\x7d|<>".data

/-- `/[!@#$%^&*(),.?":{}|<>]/.test(password)`. -/
def hasSpecialChar (p : String) : Bool :=
  p.data.any (fun c => specialChars.contains c)

/-- Result of `InputValidator.validatePassword`. -/
structure ValidationResult where
  isValid : Bool
  errors : List String
  deriving DecidableEq

/-- `validatePassword(password)` (src/js/validation.js:206-233): accumulate
one error message per failed check; `isValid: errors.length === 0`. -/
def validatePassword (password : String) : ValidationResult :=
  let errors :=
    (if password.length < 8 then ["Password must be at least 8 characters long"] else []) ++
    (if !hasUpperCase password then ["Password must contain at least one uppercase letter"] else []) ++
    (if !hasLowerCase password then ["Password must contain at least one lowercase letter"] else []) ++
    (if !hasNumbers password then ["Password must contain at least one number"] else []) ++
    (if !hasSpecialChar password then ["Password must contain at least one special character"] else [])
  ⟨decide (errors.length = 0), errors⟩

/-- The `requirements` object of `validatePasswordStrength`. -/
structure StrengthRequirements where
  minLength : Bool
  hasUpperCase : Bool
  hasLowerCase : Bool
  hasNumbers : Bool
  hasSpecialChar : Bool
  deriving DecidableEq

/-- Result of `SecurityManager.validatePasswordStrength`. -/
structure StrengthResult where
  isValid : Bool
  requirements : StrengthRequirements
  deriving DecidableEq

/-- `validatePasswordStrength(password)` (src/js/security.js:61-78):
five independent boolean checks, all required for `isValid`. -/
def validatePasswordStrength (password : String) : StrengthResult :=
  let minLength : Nat := 8
  let hU := hasUpperCase password
  let hL := hasLowerCase password
  let hN := hasNumbers password
  let hS := hasSpecialChar password
  { isValid := decide (minLength ≤ password.length) && hU && hL && hN && hS
    requirements :=
      { minLength := decide (minLength ≤ password.length)
        hasUpperCase := hU
        hasLowerCase := hL
        hasNumbers := hN
        hasSpecialChar := hS } }

/-! ## Concrete example data (spec scenarios) -/

/-- The spec scenario's order `o1`: `{id:'o1', customerName:'Alice', quantity:3}`. -/
def o1rec : Record :=
  [("id", JSValue.str "o1"), ("customerName", JSValue.str "Alice"), ("quantity", JSValue.num 3)]

/-- A second order `o2` with quantity 5. -/
def o2rec : Record :=
  [("id", JSValue.str "o2"), ("customerName", JSValue.str "Bob"), ("quantity", JSValue.num 5)]

/-- Two records tied on `quantity` (for the comparator analysis). -/
def tieA : Record := [("id", JSValue.str "a"), ("quantity", JSValue.num 1)]

/-- Second record of the tie. -/
def tieB : Record := [("id", JSValue.str "b"), ("quantity", JSValue.num 1)]

/-- A concrete cache state with one `orders` entry (in both tiers) and one
unrelated `customers` entry in the memory tier. -/
def cacheEx : CacheState Int :=
  { memory := [("orders?a=1", ⟨1, 0, 10⟩), ("customers", ⟨2, 0, 10⟩)]
    storage := [("jersey_cache_orders?a=1", ⟨1, 0, 10⟩)] }

/-! ## Helper lemmas: association-list lookups -/

theorem lookupKV_nil {β : Type} (k : String) : lookupKV k ([] : List (String × β)) = none := rfl

theorem lookupKV_cons {β : Type} (k : String) (p : String × β) (t : List (String × β)) :
    lookupKV k (p :: t) = if p.1 = k then some p.2 else lookupKV k t := by
  by_cases h : p.1 = k
  · simp [lookupKV, List.find?_cons_of_pos, h]
  · simp [lookupKV, List.find?_cons_of_neg, h]

theorem lookupKV_filter {β : Type} (q : String → Bool) (k : String) (l : List (String × β)) :
    lookupKV k (l.filter (fun p => q p.1)) = if q k then lookupKV k l else none := by
  induction l with
  | nil => simp [lookupKV_nil]
  | cons p t ih =>
      rw [List.filter_cons]
      by_cases hq : q p.1 = true
      · rw [if_pos hq, lookupKV_cons]
        by_cases hk : p.1 = k
        · subst hk
          simp [hq, lookupKV_cons]
        · simp [lookupKV_cons, hk, ih]
      · rw [if_neg hq, ih]
        by_cases hk : p.1 = k
        · subst hk
          have hq' : q p.1 = false := by simpa using hq
          simp [hq']
        · simp [lookupKV_cons, hk]

theorem lookupKV_mapSet_self {β : Type} (k : String) (v : β) (l : List (String × β)) :
    lookupKV k (mapSet k v l) = some v := by
  induction l with
  | nil => simp [mapSet, lookupKV_cons]
  | cons p t ih =>
      by_cases h : p.1 = k
      · simp [mapSet, h, lookupKV_cons]
      · simp [mapSet, h, lookupKV_cons, ih]

theorem lookupKV_mapDelete_self {β : Type} (k : String) (l : List (String × β)) :
    lookupKV k (mapDelete k l) = none := by
  have h := lookupKV_filter (fun s => decide (s ≠ k)) k l
  simpa [mapDelete] using h

/-! ## Helper lemmas: records and `Object.assign` -/

theorem getField_cons (f : String) (p : String × JSValue) (t : Record) :
    getField (p :: t) f = if p.1 = f then some p.2 else getField t f :=
  lookupKV_cons f p t

theorem getField_setRecord_id (id : String) (data : Record) :
    getField (setRecord id data) "id" = some ((lookupKV "id" data).getD (JSValue.str id)) := by
  simp [setRecord, objectAssign, getField, lookupKV_cons]

theorem setRecord_eq_cons (id : String) (data : Record) :
    setRecord id data =
      ("id", (lookupKV "id" data).getD (JSValue.str id)) ::
        data.filter (fun p => (lookupKV p.1 [("id", JSValue.str id)]).isNone) := by
  simp [setRecord, objectAssign]

theorem getField_setRecord_ne (id : String) (data : Record) (f : String) (hf : f ≠ "id") :
    getField (setRecord id data) f = getField data f := by
  have hfilter :=
    lookupKV_filter (fun s => (lookupKV s [("id", JSValue.str id)]).isNone) f data
  have hid : lookupKV f [("id", JSValue.str id)] = none := by
    rw [lookupKV_cons, if_neg (fun h => hf h.symm)]
    rfl
  rw [setRecord_eq_cons, getField, lookupKV_cons, if_neg (fun h => hf h.symm)]
  simp only [hfilter, hid]
  simp [getField]

/-- When `data` carries no conflicting `id` field, the stored record's id is
the doc id. -/
theorem idMatches_setRecord (id : String) (data : Record)
    (hid : getField data "id" = none ∨ getField data "id" = some (JSValue.str id)) :
    idMatches id (setRecord id data) = true := by
  have h := getField_setRecord_id id data
  have hv : (lookupKV "id" data).getD (JSValue.str id) = JSValue.str id := by
    rcases hid with h0 | h0 <;> simp only [getField] at h0 <;> rw [h0] <;> rfl
  simp [idMatches, h, hv]

/-! ## Helper lemmas: writes -/

theorem idMatches_iff (id : String) (x : Record) :
    idMatches id x = true ↔ getField x "id" = some (JSValue.str id) := by
  simp [idMatches]

theorem find?_docSet (id : String) (data : Record) (m : Bool) (l : List Record)
    (hid : getField data "id" = none ∨ getField data "id" = some (JSValue.str id)) :
    (docSet id data m l).find? (idMatches id) = some (setRecord id data) := by
  have hm := idMatches_setRecord id data hid
  induction l with
  | nil => simp [docSet, List.find?_cons_of_pos, hm]
  | cons r t ih =>
      by_cases hrm : idMatches id r = true
      · simp [docSet, hrm, List.find?_cons_of_pos, hm]
      · simp only [docSet, hrm, Bool.false_eq_true, if_false]
        rw [List.find?_cons_of_neg _ (by simp [hrm]), ih]

theorem docGet_docSet (id : String) (data : Record) (m : Bool) (l : List Record)
    (hid : getField data "id" = none ∨ getField data "id" = some (JSValue.str id)) :
    docGet id (docSet id data m l) = ⟨true, setRecord id data⟩ := by
  simp [docGet, find?_docSet id data m l hid]

theorem idOf_mem_docSet (id : String) (data : Record) (m : Bool) (l : List Record) :
    ∀ x ∈ (docSet id data m l).map idOf, x ∈ l.map idOf ∨ x = idOf (setRecord id data) := by
  induction l with
  | nil => simp [docSet]
  | cons r t ih =>
      by_cases hrm : idMatches id r = true
      · intro x hx
        simp only [docSet, hrm, if_true, List.map_cons, List.mem_cons] at hx
        rcases hx with hx | hx
        · exact Or.inr hx
        · exact Or.inl (by rw [List.map_cons]; exact List.mem_cons_of_mem _ hx)
      · intro x hx
        simp only [docSet, hrm, Bool.false_eq_true, if_false, List.map_cons, List.mem_cons] at hx
        rcases hx with hx | hx
        · exact Or.inl (by rw [List.map_cons, hx]; exact List.mem_cons_self _ _)
        · rcases ih x hx with h | h
          · exact Or.inl (by rw [List.map_cons]; exact List.mem_cons_of_mem _ h)
          · exact Or.inr h

theorem uniqueIds_docSet (id : String) (data : Record) (m : Bool) (l : List Record)
    (hid : getField data "id" = none ∨ getField data "id" = some (JSValue.str id))
    (h : uniqueIds l) : uniqueIds (docSet id data m l) := by
  have hstored : idOf (setRecord id data) = some (JSValue.str id) :=
    (idMatches_iff id _).mp (idMatches_setRecord id data hid)
  induction l with
  | nil => simp [docSet, uniqueIds]
  | cons r t ih =>
      rcases (by simpa [uniqueIds] using h : idOf r ∉ t.map idOf ∧ (t.map idOf).Nodup)
        with ⟨hnot, hnd⟩
      by_cases hrm : idMatches id r = true
      · have hr : idOf r = some (JSValue.str id) := (idMatches_iff id r).mp hrm
        simp only [docSet, hrm, if_true, uniqueIds, List.map_cons, List.nodup_cons]
        exact ⟨by rw [hstored, ← hr]; exact hnot, hnd⟩
      · have ih' := ih (by simpa [uniqueIds] using hnd)
        simp only [docSet, hrm, Bool.false_eq_true, if_false, uniqueIds, List.map_cons,
          List.nodup_cons]
        refine ⟨fun hmem => ?_, by simpa [uniqueIds] using ih'⟩
        rcases idOf_mem_docSet id data m t _ hmem with hmem' | hmem'
        · exact hnot hmem'
        · exact hrm ((idMatches_iff id r).mpr (hmem'.trans hstored))

theorem docSet_length_replace (id : String) (data : Record) (m : Bool) (l : List Record)
    (h : ∃ r ∈ l, idMatches id r = true) :
    (docSet id data m l).length = l.length := by
  induction l with
  | nil => rcases h with ⟨r, hr, _⟩; cases hr
  | cons r t ih =>
      by_cases hrm : idMatches id r = true
      · simp [docSet, hrm]
      · have h' : ∃ x ∈ t, idMatches id x = true := by
          rcases h with ⟨x, hx, hxm⟩
          rcases List.mem_cons.mp hx with rfl | hx'
          · exact absurd hxm hrm
          · exact ⟨x, hx', hxm⟩
        simp [docSet, hrm, ih h']

theorem docSet_eq_append (id : String) (data : Record) (m : Bool) (l : List Record)
    (h : ∀ r ∈ l, idMatches id r = false) :
    docSet id data m l = l ++ [setRecord id data] := by
  induction l with
  | nil => simp [docSet]
  | cons r t ih =>
      have hr : idMatches id r = false := h r (List.mem_cons_self r t)
      simp [docSet, hr, ih (fun x hx => h x (List.mem_cons_of_mem r hx))]

theorem idOf_mem_saveRecord (data : Record) (l : List Record) :
    ∀ x ∈ (saveRecord data l).map idOf, x ∈ l.map idOf ∨ x = idOf data := by
  induction l with
  | nil => simp [saveRecord]
  | cons r t ih =>
      by_cases hrm : getField r "id" = getField data "id"
      · have hif : saveRecord data (r :: t) = data :: t := by simp [saveRecord, hrm]
        intro x hx
        rw [hif, List.map_cons, List.mem_cons] at hx
        rcases hx with hx | hx
        · exact Or.inr hx
        · exact Or.inl (by rw [List.map_cons]; exact List.mem_cons_of_mem _ hx)
      · have hif : saveRecord data (r :: t) = r :: saveRecord data t := by
          simp [saveRecord, hrm]
        intro x hx
        rw [hif, List.map_cons, List.mem_cons] at hx
        rcases hx with hx | hx
        · exact Or.inl (by rw [List.map_cons, hx]; exact List.mem_cons_self _ _)
        · rcases ih x hx with h | h
          · exact Or.inl (by rw [List.map_cons]; exact List.mem_cons_of_mem _ h)
          · exact Or.inr h

theorem uniqueIds_saveRecord (data : Record) (l : List Record)
    (h : uniqueIds l) : uniqueIds (saveRecord data l) := by
  induction l with
  | nil => simp [saveRecord, uniqueIds]
  | cons r t ih =>
      rcases (by simpa [uniqueIds] using h : idOf r ∉ t.map idOf ∧ (t.map idOf).Nodup)
        with ⟨hnot, hnd⟩
      by_cases hrm : getField r "id" = getField data "id"
      · have hif : saveRecord data (r :: t) = data :: t := by simp [saveRecord, hrm]
        rw [hif]
        simp only [uniqueIds, List.map_cons, List.nodup_cons]
        refine ⟨?_, hnd⟩
        have heq : idOf data = idOf r := by simp [idOf, hrm]
        rw [heq]; exact hnot
      · have ih' := ih (by simpa [uniqueIds] using hnd)
        have hif : saveRecord data (r :: t) = r :: saveRecord data t := by
          simp [saveRecord, hrm]
        rw [show uniqueIds (saveRecord data (r :: t)) =
          uniqueIds (r :: saveRecord data t) from congrArg uniqueIds hif]
        simp only [uniqueIds, List.map_cons, List.nodup_cons]
        refine ⟨fun hmem => ?_, by simpa [uniqueIds] using ih'⟩
        rcases idOf_mem_saveRecord data t _ hmem with hmem' | hmem'
        · exact hnot hmem'
        · exact hrm hmem'

theorem saveRecord_length_replace (data : Record) (l : List Record)
    (h : ∃ r ∈ l, getField r "id" = getField data "id") :
    (saveRecord data l).length = l.length := by
  induction l with
  | nil => rcases h with ⟨r, hr, _⟩; cases hr
  | cons r t ih =>
      by_cases hrm : getField r "id" = getField data "id"
      · simp [saveRecord, hrm]
      · have h' : ∃ x ∈ t, getField x "id" = getField data "id" := by
          rcases h with ⟨x, hx, hxm⟩
          rcases List.mem_cons.mp hx with rfl | hx'
          · exact absurd hxm hrm
          · exact ⟨x, hx', hxm⟩
        simp [saveRecord, hrm, ih h']

theorem saveRecord_eq_append (data : Record) (l : List Record)
    (h : ∀ r ∈ l, getField r "id" ≠ getField data "id") :
    saveRecord data l = l ++ [data] := by
  induction l with
  | nil => simp [saveRecord]
  | cons r t ih =>
      have hr : ¬ getField r "id" = getField data "id" := h r (List.mem_cons_self r t)
      simp [saveRecord, hr, ih (fun x hx => h x (List.mem_cons_of_mem r hx))]

/-! ## Helper lemmas: the shim's comparator and sort -/

theorem jsGtV_asymm (u v : JSValue) (h : jsGtV u v = true) : jsGtV v u = false := by
  cases u with
  | str s =>
      cases v with
      | str t =>
          simp only [jsGtV, decide_eq_true_eq] at h
          simp only [jsGtV, decide_eq_false_iff_not]
          exact lt_asymm h
      | num n => simp [jsGtV] at h
  | num n =>
      cases v with
      | str t => simp [jsGtV] at h
      | num m =>
          simp only [jsGtV, decide_eq_true_eq] at h
          simp only [jsGtV, decide_eq_false_iff_not]
          omega

theorem jsGtOpt_asymm (u v : Option JSValue) (h : jsGtOpt u v = true) : jsGtOpt v u = false := by
  cases u <;> cases v <;> simp [jsGtOpt] at *
  exact jsGtV_asymm _ _ h

theorem jsCompare_cases (d f : String) (a b : Record) :
    jsCompare d f a b = 1 ∨ jsCompare d f a b = -1 := by
  by_cases hd : d = "desc"
  · by_cases hg : jsGtOpt (getField b f) (getField a f) = true <;> simp [jsCompare, hd, hg]
  · by_cases hg : jsGtOpt (getField a f) (getField b f) = true <;> simp [jsCompare, hd, hg]

theorem jsLe_total (d f : String) (a b : Record) (h : jsLe d f a b = false) :
    jsLe d f b a = true := by
  by_cases hd : d = "desc"
  · simp only [jsLe, jsCompare, hd, if_true, decide_eq_false_iff_not, decide_eq_true_eq] at *
    by_cases hg : jsGtOpt (getField b f) (getField a f) = true
    · simp [jsGtOpt_asymm _ _ hg]
    · simp [hg] at h
  · simp only [jsLe, jsCompare, hd, if_false, decide_eq_false_iff_not, decide_eq_true_eq] at *
    by_cases hg : jsGtOpt (getField a f) (getField b f) = true
    · simp [jsGtOpt_asymm _ _ hg]
    · simp [hg] at h

theorem jsLe_num_iff (d f : String) (x y : Record) (nx ny : Int)
    (hx : getField x f = some (JSValue.num nx)) (hy : getField y f = some (JSValue.num ny)) :
    (jsLe d f x y = true ↔ (if d = "desc" then ny ≤ nx else nx ≤ ny)) := by
  by_cases hd : d = "desc" <;>
    simp [jsLe, jsCompare, hx, hy, hd, jsGtOpt, jsGtV]

theorem perm_insertLe (le : Record → Record → Bool) (a : Record) (l : List Record) :
    (insertLe le a l).Perm (a :: l) := by
  induction l with
  | nil => simp [insertLe]
  | cons b t ih =>
      by_cases h : le a b = true
      · simp [insertLe, h]
      · simp only [insertLe, h, Bool.false_eq_true, if_false]
        exact (ih.cons b).trans (List.Perm.swap a b t)

theorem perm_sortLe (le : Record → Record → Bool) (l : List Record) :
    (sortLe le l).Perm l := by
  induction l with
  | nil => simp [sortLe]
  | cons a t ih =>
      exact (perm_insertLe le a (sortLe le t)).trans (ih.cons a)

theorem mem_insertLe (le : Record → Record → Bool) (a x : Record) (l : List Record)
    (h : x ∈ insertLe le a l) : x = a ∨ x ∈ l := by
  have := (perm_insertLe le a l).mem_iff.mp h
  simpa using this

theorem pairwise_insertLe (le : Record → Record → Bool)
    (hTot : ∀ x y, le x y = false → le y x = true)
    (S : Record → Prop)
    (hTrans : ∀ x y z, S x → S y → S z → le x y = true → le y z = true → le x z = true)
    (a : Record) (ha : S a) :
    ∀ l : List Record, (∀ x ∈ l, S x) →
      l.Pairwise (fun x y => le x y = true) →
      (insertLe le a l).Pairwise (fun x y => le x y = true)
  | [], _, _ => by simp [insertLe]
  | b :: t, hS, hp => by
      rcases List.pairwise_cons.mp hp with ⟨hbt, hpt⟩
      by_cases h : le a b = true
      · simp only [insertLe, h, if_true]
        refine List.pairwise_cons.mpr ⟨?_, hp⟩
        intro x hx
        rcases List.mem_cons.mp hx with rfl | hx'
        · exact h
        · exact hTrans a b x ha (hS b (List.mem_cons_self b t)) (hS x (List.mem_cons_of_mem b hx'))
            h (hbt x hx')
      · have h' : le a b = false := by simpa using h
        simp only [insertLe, h', Bool.false_eq_true, if_false]
        refine List.pairwise_cons.mpr ⟨?_, ?_⟩
        · intro x hx
          rcases mem_insertLe le a x t hx with heq | hx'
          · rw [heq]; exact hTot a b h'
          · exact hbt x hx'
        · exact pairwise_insertLe le hTot S hTrans a ha t
            (fun x hx => hS x (List.mem_cons_of_mem b hx)) hpt

theorem pairwise_sortLe (le : Record → Record → Bool)
    (hTot : ∀ x y, le x y = false → le y x = true)
    (S : Record → Prop)
    (hTrans : ∀ x y z, S x → S y → S z → le x y = true → le y z = true → le x z = true) :
    ∀ l : List Record, (∀ x ∈ l, S x) →
      (sortLe le l).Pairwise (fun x y => le x y = true)
  | [], _ => by simp [sortLe]
  | a :: t, hS => by
      have ih := pairwise_sortLe le hTot S hTrans t
        (fun x hx => hS x (List.mem_cons_of_mem a hx))
      have hmem : ∀ x ∈ sortLe le t, S x := fun x hx =>
        hS x (List.mem_cons_of_mem a ((perm_sortLe le t).mem_iff.mp hx))
      exact pairwise_insertLe le hTot S hTrans a (hS a (List.mem_cons_self a t))
        (sortLe le t) hmem ih

/-! ## Helper lemmas: sequences of writes -/

theorem foldl_docSet_length :
    ∀ (ws : List (String × Record)) (l : List Record),
      (∀ w ∈ ws, getField w.2 "id" = none) →
      (ws.map Prod.fst).Nodup →
      (∀ w ∈ ws, ∀ r ∈ l, idMatches w.1 r = false) →
      (ws.foldl (fun acc w => docSet w.1 w.2 false acc) l).length = l.length + ws.length
  | [], l, _, _, _ => by simp
  | w :: ws', l, hids, hnd, hfresh => by
      have hwid : getField w.2 "id" = none := hids w (List.mem_cons_self w ws')
      have hfr : ∀ r ∈ l, idMatches w.1 r = false :=
        fun r hr => hfresh w (List.mem_cons_self w ws') r hr
      have happ := docSet_eq_append w.1 w.2 false l hfr
      have hstored : getField (setRecord w.1 w.2) "id" = some (JSValue.str w.1) := by
        rw [getField_setRecord_id]
        have : lookupKV "id" w.2 = none := hwid
        rw [this]
        rfl
      rw [List.map_cons] at hnd
      rcases List.nodup_cons.mp hnd with ⟨hw1, hnd'⟩
      have hfresh' : ∀ w' ∈ ws', ∀ r ∈ docSet w.1 w.2 false l, idMatches w'.1 r = false := by
        intro w' hw' r hr
        rw [happ] at hr
        rcases List.mem_append.mp hr with hr' | hr'
        · exact hfresh w' (List.mem_cons_of_mem w hw') r hr'
        · have hrs : r = setRecord w.1 w.2 := by simpa using hr'
        -- the freshly stored record's id is w.1, distinct from every later write's id
          subst hrs
          have hne : w.1 ≠ w'.1 := fun hcontra => hw1 (by
            rw [hcontra]
            exact List.mem_map.mpr ⟨w', hw', rfl⟩)
          rw [idMatches, hstored, decide_eq_false_iff_not]
          intro hcontra
          exact hne (by injection hcontra with h1; injection h1)
      have ih := foldl_docSet_length ws' (docSet w.1 w.2 false l)
        (fun x hx => hids x (List.mem_cons_of_mem w hx)) hnd' hfresh'
      have hlen : (docSet w.1 w.2 false l).length = l.length + 1 := by
        rw [happ]; simp
      simp only [List.foldl_cons]
      rw [ih, hlen]
      simp only [List.length_cons]
      omega

/-! ## Helper lemmas: string prefixes -/

theorem listIsPrefixOf_append {γ : Type} [BEq γ] [LawfulBEq γ] (a b c : List γ) :
    List.isPrefixOf (a ++ b) (a ++ c) = List.isPrefixOf b c := by
  induction a with
  | nil => simp
  | cons x xs ih => simp [List.isPrefixOf, ih]

theorem strStarts_append (p c k : String) :
    strStarts (p ++ c) (p ++ k) = strStarts c k := by
  simp only [strStarts, String.data_append]
  exact listIsPrefixOf_append p.data c.data k.data

/-! ## Helper lemmas: lookup under permutation -/

theorem lookupKV_perm {β : Type} {l1 l2 : List (String × β)} (h : l1.Perm l2) :
    (l1.map Prod.fst).Nodup → ∀ k : String, lookupKV k l1 = lookupKV k l2 := by
  induction h with
  | nil => intro _ _; rfl
  | cons p h ih =>
      intro hnd k
      rw [List.map_cons, List.nodup_cons] at hnd
      rw [lookupKV_cons, lookupKV_cons]
      by_cases hk : p.1 = k
      · rw [if_pos hk, if_pos hk]
      · rw [if_neg hk, if_neg hk]
        exact ih hnd.2 k
  | swap x y l =>
      intro hnd k
      rw [List.map_cons, List.map_cons, List.nodup_cons, List.mem_cons] at hnd
      have hne : y.1 ≠ x.1 := fun hcontra => hnd.1 (Or.inl hcontra)
      rw [lookupKV_cons, lookupKV_cons, lookupKV_cons, lookupKV_cons]
      by_cases h1 : y.1 = k <;> by_cases h2 : x.1 = k
      · exact absurd (h1.trans h2.symm) hne
      · rw [if_pos h1, if_neg h2, if_pos h1]
      · rw [if_neg h1, if_pos h2, if_pos h2]
      · rw [if_neg h1, if_neg h2, if_neg h2, if_neg h1]
  | trans h12 h23 ih12 ih23 =>
      intro hnd k
      have hnd2 := ((h12.map Prod.fst).nodup_iff).mp hnd
      exact (ih12 hnd k).trans (ih23 hnd2 k)

/-! ## Claim theorems -/

/-- C5: `collection(name).doc(id).get()` never throws (it is a total
function of the collection): when a record with the given id exists, the
result has `exists = true` and `data()` is that record (a member of the
collection carrying that id); when none exists, `exists = false` and
`data()` is the empty object. -/
theorem C5_docGet_total_spec (id : String) (l : List Record) :
    ((docGet id l).exists_ = true ↔ ∃ r ∈ l, getField r "id" = some (JSValue.str id)) ∧
    ((docGet id l).exists_ = true → (docGet id l).data ∈ l ∧
      getField ((docGet id l).data) "id" = some (JSValue.str id)) ∧
    ((docGet id l).exists_ = false → (docGet id l).data = ([] : Record)) := by
  cases hfind : l.find? (idMatches id) with
  | some r =>
      have hmem := List.mem_of_find?_eq_some hfind
      have hp := (idMatches_iff id r).mp (List.find?_some hfind)
      have hres : docGet id l = ⟨true, r⟩ := by simp [docGet, hfind]
      rw [hres]
      exact ⟨⟨fun _ => ⟨r, hmem, hp⟩, fun _ => rfl⟩, fun _ => ⟨hmem, hp⟩,
        fun h => by simp at h⟩
  | none =>
      have hres : docGet id l = ⟨false, []⟩ := by simp [docGet, hfind]
      have hnone := List.find?_eq_none.mp hfind
      rw [hres]
      refine ⟨⟨fun h => absurd h (by decide), fun hex => ?_⟩,
        fun h => absurd h (by decide), fun _ => rfl⟩
      rcases hex with ⟨r, hr, hid⟩
      exact absurd ((idMatches_iff id r).mpr hid) (by simpa using hnone r hr)

/-- Witness for C5 at a concrete collection: a present id and an absent id. -/
theorem C5_docGet_total_spec_witness :
    ((docGet "a" [tieA]).data ∈ [tieA] ∧
      getField ((docGet "a" [tieA]).data) "id" = some (JSValue.str "a")) ∧
    (docGet "zzz" [tieA]).data = ([] : Record) :=
  ⟨(C5_docGet_total_spec "a" [tieA]).2.1 (by decide),
   (C5_docGet_total_spec "zzz" [tieA]).2.2 (by decide)⟩

/-- C10: `doc(id).set(data)` stores `Object.assign({ id }, data)`: on an
empty collection exactly that record is appended; when `data` carries an
`id` field its value overrides the doc id, and only when `data` has no
`id` field does the stored record carry the doc id. -/
theorem C10_set_id_override (id : String) (data : Record) (m : Bool) :
    (docSet id data m [] = [setRecord id data]) ∧
    (∀ v, getField data "id" = some v → getField (setRecord id data) "id" = some v) ∧
    (getField data "id" = none → getField (setRecord id data) "id" = some (JSValue.str id)) := by
  refine ⟨rfl, fun v hv => ?_, fun hv => ?_⟩
  · rw [getField_setRecord_id]
    have hv' : lookupKV "id" data = some v := hv
    rw [hv']
    rfl
  · rw [getField_setRecord_id]
    have hv' : lookupKV "id" data = none := hv
    rw [hv']
    rfl

/-- Witness for C10: a conflicting `id` field wins; absent, the doc id is
stored. -/
theorem C10_set_id_override_witness :
    getField (setRecord "a" [("id", JSValue.str "b")]) "id" = some (JSValue.str "b") ∧
    getField (setRecord "a" [("q", JSValue.num 1)]) "id" = some (JSValue.str "a") :=
  ⟨(C10_set_id_override "a" [("id", JSValue.str "b")] true).2.1 (JSValue.str "b") (by decide),
   (C10_set_id_override "a" [("q", JSValue.num 1)] true).2.2 (by decide)⟩

/-- C4 (code evaluated at the failing input): the `orderBy` comparator never
returns 0 — on two records tied on the sort field it returns -1 for both
argument orders, in both directions. It is therefore not a consistent
comparison function, so `Array.prototype.sort`'s stable-order guarantee does
not apply to ties (the ECMAScript sort order is implementation-defined for
inconsistent comparators, and V8's TimSort reverses such ties), contradicting
the spec's stable-sort requirement. -/
theorem C4_comparator_inconsistent_on_ties :
    (∀ (d f : String) (a b : Record),
      jsCompare d f a b = 1 ∨ jsCompare d f a b = -1) ∧
    (jsCompare "asc" "quantity" tieA tieB = -1 ∧ jsCompare "asc" "quantity" tieB tieA = -1) ∧
    (jsCompare "desc" "quantity" tieA tieB = -1 ∧ jsCompare "desc" "quantity" tieB tieA = -1) :=
  ⟨jsCompare_cases, by decide, by decide⟩

/-- Witness for C4: the comparator evaluated at a concrete pair. -/
theorem C4_comparator_inconsistent_on_ties_witness :
    jsCompare "asc" "quantity" tieA tieB = 1 ∨ jsCompare "asc" "quantity" tieA tieB = -1 :=
  C4_comparator_inconsistent_on_ties.1 "asc" "quantity" tieA tieB

/-- C9: password validation succeeds iff the password has length ≥ 8 and
contains an uppercase letter, a lowercase letter, a digit and one of the
special characters, each checked independently — for both
`InputValidator.validatePassword` and
`SecurityManager.validatePasswordStrength`; `"Password1"` fails and
`"Password1!"` passes on both. -/
theorem C9_password_validation_spec :
    (∀ p : String,
      ((validatePassword p).isValid = true ↔
        (8 ≤ p.length ∧ hasUpperCase p = true ∧ hasLowerCase p = true ∧
          hasNumbers p = true ∧ hasSpecialChar p = true)) ∧
      ((validatePasswordStrength p).isValid = true ↔
        (8 ≤ p.length ∧ hasUpperCase p = true ∧ hasLowerCase p = true ∧
          hasNumbers p = true ∧ hasSpecialChar p = true))) ∧
    (validatePassword "Password1").isValid = false ∧
    (validatePassword "Password1!").isValid = true ∧
    (validatePasswordStrength "Password1").isValid = false ∧
    (validatePasswordStrength "Password1!").isValid = true := by
  refine ⟨fun p => ⟨?_, ?_⟩, by decide, by decide, by decide, by decide⟩
  · by_cases h1 : p.length < 8 <;> by_cases h2 : hasUpperCase p = true <;>
      by_cases h3 : hasLowerCase p = true <;> by_cases h4 : hasNumbers p = true <;>
      by_cases h5 : hasSpecialChar p = true <;>
      simp [validatePassword, h1, h2, h3, h4, h5] <;> omega
  · by_cases h1 : 8 ≤ p.length <;> by_cases h2 : hasUpperCase p = true <;>
      by_cases h3 : hasLowerCase p = true <;> by_cases h4 : hasNumbers p = true <;>
      by_cases h5 : hasSpecialChar p = true <;>
      simp [validatePasswordStrength, h1, h2, h3, h4, h5]

/-- Witness for C9: the passing password, obtained through the
characterisation. -/
theorem C9_password_validation_spec_witness :
    (validatePassword "Password1!").isValid = true :=
  ((C9_password_validation_spec.1 "Password1!").1).mpr (by decide)

/-- C2 counterexample: the merge option is ignored.  Write
`{a:1, b:2}` to doc `d1`, then `set({b:3}, { merge: true })`: the claim says
field `a` (present before, absent from the new data) is preserved, but the
record returned by a subsequent get has no field `a`. -/
theorem C2_merge_cex :
    getField ((docGet "d1"
        (docSet "d1" [("a", JSValue.num 1), ("b", JSValue.num 2)] true [])).data) "a"
      = some (JSValue.num 1) ∧
    getField ((docGet "d1"
        (docSet "d1" [("b", JSValue.num 3)] true
          (docSet "d1" [("a", JSValue.num 1), ("b", JSValue.num 2)] true []))).data) "a"
      = none := by decide

/-- C2 amended: `set(data, opts)` ignores the merge option and always
replaces: provided `data` carries no `id` field different from the doc id, a
subsequent get by the same id finds the record, and its fields are exactly the
written fields plus `id` — fields of the old record absent from `data` are
lost, with or without merge. -/
theorem C2_set_replaces (id : String) (data : Record) (m : Bool) (l : List Record)
    (hid : getField data "id" = none ∨ getField data "id" = some (JSValue.str id)) :
    (docGet id (docSet id data m l)).exists_ = true ∧
    (∀ f : String, getField ((docGet id (docSet id data m l)).data) f =
      (if f = "id" then some (JSValue.str id) else getField data f)) := by
  have h := docGet_docSet id data m l hid
  rw [h]
  refine ⟨rfl, fun f => ?_⟩
  by_cases hf : f = "id"
  · subst hf
    rw [if_pos rfl, getField_setRecord_id]
    have hv : (lookupKV "id" data).getD (JSValue.str id) = JSValue.str id := by
      rcases hid with h0 | h0 <;> simp only [getField] at h0 <;> rw [h0] <;> rfl
    rw [hv]
  · rw [if_neg hf]
    exact getField_setRecord_ne id data f hf

/-- Witness for C2 (amended) at the spec's order scenario. -/
theorem C2_set_replaces_witness :
    (docGet "o1" (docSet "o1"
      [("customerName", JSValue.str "Alice"), ("quantity", JSValue.num 3)] true [])).exists_
      = true :=
  (C2_set_replaces "o1" [("customerName", JSValue.str "Alice"), ("quantity", JSValue.num 3)]
    true [] (Or.inl (by decide))).1

/-- C3 counterexample: writing through `doc('a').set({id:'b'})` twice on an
empty collection appends two records that both carry id `b` — the claim's
"never two records with the same id" fails, because the `id` field of the
data overrides the doc id used for matching. -/
theorem C3_unique_ids_cex :
    (docSet "a" [("id", JSValue.str "b")] false
        (docSet "a" [("id", JSValue.str "b")] false [])).map idOf
      = [some (JSValue.str "b"), some (JSValue.str "b")] ∧
    (docSet "a" [("id", JSValue.str "b")] false
        (docSet "a" [("id", JSValue.str "b")] false [])).countP (fun r => idMatches "b" r)
      = 2 := by decide

/-- C3 amended: provided each `doc(id).set` write's data carries no `id`
field different from the doc id, and `FirebaseData.save` receives a single
record (not an array), each write either replaces the first record with
matching id (record count unchanged) or appends one new record (count + 1),
and a collection with pairwise-distinct ids keeps pairwise-distinct ids;
hence N `set` writes with N distinct fresh ids on an empty collection
produce exactly N records. -/
theorem C3_unique_ids_amended :
    (∀ (id : String) (data : Record) (m : Bool) (l : List Record),
      (getField data "id" = none ∨ getField data "id" = some (JSValue.str id)) →
      uniqueIds l →
      uniqueIds (docSet id data m l) ∧
      ((∃ r ∈ l, getField r "id" = some (JSValue.str id)) →
        (docSet id data m l).length = l.length) ∧
      ((∀ r ∈ l, getField r "id" ≠ some (JSValue.str id)) →
        (docSet id data m l).length = l.length + 1)) ∧
    (∀ (data : Record) (l : List Record), uniqueIds l →
      uniqueIds (saveRecord data l) ∧
      ((∃ r ∈ l, getField r "id" = getField data "id") →
        (saveRecord data l).length = l.length) ∧
      ((∀ r ∈ l, getField r "id" ≠ getField data "id") →
        (saveRecord data l).length = l.length + 1)) ∧
    (∀ ws : List (String × Record),
      (∀ w ∈ ws, getField w.2 "id" = none) → (ws.map Prod.fst).Nodup →
      (ws.foldl (fun acc w => docSet w.1 w.2 false acc) []).length = ws.length) := by
  refine ⟨fun id data m l hid hu => ⟨uniqueIds_docSet id data m l hid hu, ?_, ?_⟩,
    fun data l hu => ⟨uniqueIds_saveRecord data l hu, ?_, ?_⟩,
    fun ws hids hnd => ?_⟩
  · intro hex
    rcases hex with ⟨r, hr, hrid⟩
    exact docSet_length_replace id data m l ⟨r, hr, (idMatches_iff id r).mpr hrid⟩
  · intro hall
    have happ := docSet_eq_append id data m l (fun r hr => by
      rw [idMatches, decide_eq_false_iff_not]
      exact hall r hr)
    rw [happ]
    simp
  · intro hex
    exact saveRecord_length_replace data l hex
  · intro hall
    rw [saveRecord_eq_append data l hall]
    simp
  · have h := foldl_docSet_length ws [] hids hnd (fun w _ r hr => absurd hr (List.not_mem_nil r))
    simpa using h

/-- Witness for C3 (amended): a fresh write keeps ids unique, and two
distinct-id writes from empty yield two records. -/
theorem C3_unique_ids_amended_witness :
    uniqueIds (docSet "o1" [("quantity", JSValue.num 3)] false []) ∧
    (([("o1", ([("quantity", JSValue.num 3)] : Record)),
       ("o2", ([("quantity", JSValue.num 5)] : Record))].foldl
        (fun acc w => docSet w.1 w.2 false acc) []).length = 2) :=
  ⟨(C3_unique_ids_amended.1 "o1" [("quantity", JSValue.num 3)] false []
      (Or.inl (by decide)) (by unfold uniqueIds; decide)).1,
   C3_unique_ids_amended.2.2
      [("o1", [("quantity", JSValue.num 3)]), ("o2", [("quantity", JSValue.num 5)])]
      (by decide) (by decide)⟩

/-- C1 counterexample: `limit` does not truncate.  On the collection
`[o1 (quantity 3), o2 (quantity 5)]`, `orderBy('quantity','desc').limit(1)`
emits the full sorted list `[o2, o1]`, not `[o2]`. -/
theorem C1_limit_cex :
    (((orderBy "quantity" "desc").limit 1).onSnapshot [o1rec, o2rec]).emissions
      = [[o2rec, o1rec]] ∧
    decide ((((orderBy "quantity" "desc").limit 1).onSnapshot [o1rec, o2rec]).emissions
      = [[o2rec]]) = false := by decide

/-- C1 amended: for every collection, sort field, direction and limit `n`,
`orderBy(field, dir).limit(n).onSnapshot(callback)` invokes the callback
exactly once, with a permutation of ALL the collection's records (the
`limit` call ignores its argument, so the emission is never truncated: its
length is the full collection length), ordered by the comparator whenever
the sort-field values are all numeric; an (inert) unsubscribe function is
returned. -/
theorem C1_onSnapshot_amended (f d : String) (n : Nat) (l : List Record) :
    (((orderBy f d).limit n).onSnapshot l).emissions.length = 1 ∧
    (∀ e ∈ (((orderBy f d).limit n).onSnapshot l).emissions,
      e.Perm l ∧ e.length = l.length) ∧
    ((∀ r ∈ l, ∃ k : Int, getField r f = some (JSValue.num k)) →
      ∀ e ∈ (((orderBy f d).limit n).onSnapshot l).emissions,
        e.Pairwise (fun a b => jsLe d f a b = true)) := by
  refine ⟨rfl, ?_, ?_⟩
  · intro e he
    have he' : e = snapshotDocs d f l := by
      simpa [Query.onSnapshot, orderBy, Query.limit] using he
    subst he'
    exact ⟨perm_sortLe _ l, (perm_sortLe _ l).length_eq⟩
  · intro hnum e he
    have he' : e = snapshotDocs d f l := by
      simpa [Query.onSnapshot, orderBy, Query.limit] using he
    subst he'
    refine pairwise_sortLe (jsLe d f) (jsLe_total d f)
      (fun r => ∃ k : Int, getField r f = some (JSValue.num k)) ?_ l hnum
    intro x y z hx hy hz hxy hyz
    rcases hx with ⟨nx, hx⟩
    rcases hy with ⟨ny, hy⟩
    rcases hz with ⟨nz, hz⟩
    have h1 := (jsLe_num_iff d f x y nx ny hx hy).mp hxy
    have h2 := (jsLe_num_iff d f y z ny nz hy hz).mp hyz
    refine (jsLe_num_iff d f x z nx nz hx hz).mpr ?_
    by_cases hd : d = "desc"
    · rw [if_pos hd] at h1 h2 ⊢; omega
    · rw [if_neg hd] at h1 h2 ⊢; omega

/-- Witness for C1 (amended): on the spec's two-order collection the single
emission is sorted descending by quantity. -/
theorem C1_onSnapshot_amended_witness :
    (((orderBy "quantity" "desc").limit 1).onSnapshot [o1rec, o2rec]).emissions.length = 1 ∧
    (snapshotDocs "desc" "quantity" [o1rec, o2rec]).Pairwise
      (fun a b => jsLe "desc" "quantity" a b = true) :=
  ⟨(C1_onSnapshot_amended "quantity" "desc" 1 [o1rec, o2rec]).1,
   (C1_onSnapshot_amended "quantity" "desc" 1 [o1rec, o2rec]).2.2
      (by
        intro r hr
        rcases List.mem_cons.mp hr with heq | hr'
        · exact ⟨3, by rw [heq]; decide⟩
        · rcases List.mem_cons.mp hr' with heq | hr''
          · exact ⟨5, by rw [heq]; decide⟩
          · exact absurd hr'' (List.not_mem_nil r))
      (snapshotDocs "desc" "quantity" [o1rec, o2rec])
      (List.mem_singleton.mpr rfl)⟩

/-- C6: after `CacheManager.set(key, data, ttl)` at time `t0`, a `get(key)`
at time `t` returns `data` whenever `t - t0 < ttl`; once `t - t0 ≥ ttl` it
returns null, and the expired entry is removed from both the memory tier
and the durable tier as a side effect. -/
theorem C6_cache_ttl_spec {α : Type} (st : CacheState α) (key : String) (data : α)
    (ttl t0 t : Int) :
    ((t - t0 < ttl) →
      (cacheGet t key (cacheSet t0 key data ttl st)).1 = some data) ∧
    ((ttl ≤ t - t0) →
      (cacheGet t key (cacheSet t0 key data ttl st)).1 = none ∧
      lookupKV key (cacheGet t key (cacheSet t0 key data ttl st)).2.memory = none ∧
      lookupKV (cacheStoragePref ++ key)
        (cacheGet t key (cacheSet t0 key data ttl st)).2.storage = none) := by
  have hmem : lookupKV key (cacheSet t0 key data ttl st).memory
      = some ⟨data, t0, ttl⟩ := by
    simp [cacheSet, setMemoryCache, lookupKV_mapSet_self]
  have hstor : lookupKV (cacheStoragePref ++ key) (cacheSet t0 key data ttl st).storage
      = some ⟨data, t0, ttl⟩ := by
    simp [cacheSet, lookupKV_mapSet_self]
  constructor
  · intro hfresh
    have hv : itemValid t (⟨data, t0, ttl⟩ : CacheItem α) = true := by
      simp [itemValid]; omega
    simp [cacheGet, hmem, hv]
  · intro hexp
    have hv : itemValid t (⟨data, t0, ttl⟩ : CacheItem α) = false := by
      simp [itemValid]; omega
    simp [cacheGet, hmem, hv, cacheGetStorage, hstor, lookupKV_mapDelete_self]

/-- Witness for C6: set at time 0 with ttl 10, read back at times 5 and 10. -/
theorem C6_cache_ttl_spec_witness :
    (cacheGet 5 "k" (cacheSet 0 "k" (7 : Int) 10 ⟨[], []⟩)).1 = some 7 ∧
    (cacheGet 10 "k" (cacheSet 0 "k" (7 : Int) 10 ⟨[], []⟩)).1 = none :=
  ⟨(C6_cache_ttl_spec ⟨[], []⟩ "k" 7 10 0 5).1 (by decide),
   ((C6_cache_ttl_spec ⟨[], []⟩ "k" 7 10 0 10).2 (by decide)).1⟩

/-- C7: `generateKey` sorts the option keys, so it is a function of the set
of key/value pairs only: permuting the (distinct-keyed) options leaves the
generated key unchanged. -/
theorem C7_generateKey_order_independent (c : String) (l1 l2 : List (String × String))
    (hperm : l1.Perm l2) (hnd : (l1.map Prod.fst).Nodup) :
    generateKey c l1 = generateKey c l2 := by
  have hkeysperm : (l1.map Prod.fst).Perm (l2.map Prod.fst) := hperm.map Prod.fst
  have hkeys : (l1.map Prod.fst).insertionSort (· ≤ ·)
      = (l2.map Prod.fst).insertionSort (· ≤ ·) :=
    List.eq_of_perm_of_sorted
      (((List.perm_insertionSort _ _).trans hkeysperm).trans
        (List.perm_insertionSort _ _).symm)
      (List.sorted_insertionSort _ _) (List.sorted_insertionSort _ _)
  have hlook : (fun k => k ++ "=" ++ ((lookupKV k l1).getD ""))
      = (fun k => k ++ "=" ++ ((lookupKV k l2).getD "")) :=
    funext fun k => by rw [lookupKV_perm hperm hnd k]
  rw [generateKey, generateKey, hkeys, hlook]

/-- Witness for C7 at the spec's example options. -/
theorem C7_generateKey_order_independent_witness :
    generateKey "orders" [("a", "1"), ("b", "2")]
      = generateKey "orders" [("b", "2"), ("a", "1")] :=
  C7_generateKey_order_independent "orders" _ _
    (List.Perm.swap ("b", "2") ("a", "1") []) (by decide)

/-- C8: `invalidateCollection(prefix)` removes every cache entry whose key
starts with the prefix, from both tiers, and leaves every entry whose key
does not start with it untouched (the durable tier stores keys under the
`jersey_cache_` storage prefix). -/
theorem C8_invalidate_spec {α : Type} (c k : String) (st : CacheState α) :
    (strStarts c k = true →
      lookupKV k (invalidateCollection c st).memory = none ∧
      lookupKV (cacheStoragePref ++ k) (invalidateCollection c st).storage = none) ∧
    (strStarts c k = false →
      lookupKV k (invalidateCollection c st).memory = lookupKV k st.memory ∧
      lookupKV (cacheStoragePref ++ k) (invalidateCollection c st).storage
        = lookupKV (cacheStoragePref ++ k) st.storage) := by
  have hmem := lookupKV_filter (fun s => !(strStarts c s)) k st.memory
  have hst := lookupKV_filter (fun s => !(strStarts (cacheStoragePref ++ c) s))
    (cacheStoragePref ++ k) st.storage
  have hpre : strStarts (cacheStoragePref ++ c) (cacheStoragePref ++ k) = strStarts c k :=
    strStarts_append _ _ _
  constructor
  · intro h
    constructor
    · simp only [invalidateCollection]
      rw [hmem, h]
      simp
    · simp only [invalidateCollection]
      rw [hst, hpre, h]
      simp
  · intro h
    constructor
    · simp only [invalidateCollection]
      rw [hmem, h]
      simp
    · simp only [invalidateCollection]
      rw [hst, hpre, h]
      simp

/-- Witness for C8 on a concrete two-entry cache: the `orders` entry is
dropped from both tiers, the `customers` entry survives. -/
theorem C8_invalidate_spec_witness :
    (lookupKV "orders?a=1" (invalidateCollection "orders" cacheEx).memory = none ∧
      lookupKV (cacheStoragePref ++ "orders?a=1")
        (invalidateCollection "orders" cacheEx).storage = none) ∧
    lookupKV "customers" (invalidateCollection "orders" cacheEx).memory
      = lookupKV "customers" cacheEx.memory :=
  ⟨(C8_invalidate_spec "orders" "orders?a=1" cacheEx).1 (by decide),
   ((C8_invalidate_spec "orders" "customers" cacheEx).2 (by decide)).1⟩

end Jersey
